import Mathlib

/-! # Verification of the llm-typed chat-completion client

Shallow embedding of the repository: the `query` entry point and the `send`
transport from the chatgpt module, the zod schemas they declare
(`messageSchema`, `usageSchema`, `responseSchema`), the configuration merge,
and the platform JSON functions (`JSON.stringify` and `JSON.parse`) that the
code relies on.

Modelling conventions:
- JSON numbers are modelled as integers (`Int`). JavaScript numbers are IEEE
  doubles; the integral fragment is the part a shallow embedding can state
  exactly, and no claim depends on fractional content payloads.
- `JSON.stringify` emits compact JSON with string escaping restricted to the
  quote and backslash characters; the modelled `JSON.parse` accepts exactly
  this canonical form (escapes for quote and backslash, no surrounding
  whitespace). The roundtrip `parse after stringify = identity` is proved
  below for every modelled JSON value.
- The network is modelled by passing the decoded provider response body (the
  result of the platform `res.json()`) as an explicit argument to `send`.
- `console.warn` / `console.error` output and the `process.exit(1)` /
  unhandled-throw terminations are tracked explicitly in the result record.
-/

/-- A JSON value as produced by the platform `res.json()` / `JSON.parse`.
Numbers are restricted to integers (see the module comment). -/
inductive JsonValue where
  | null : JsonValue
  | bool : Bool → JsonValue
  | num : Int → JsonValue
  | str : String → JsonValue
  | arr : List JsonValue → JsonValue
  | obj : List (String × JsonValue) → JsonValue

mutual

/-- Structural (deep) equality of JSON values, as a boolean. -/
def JsonValue.beq : JsonValue → JsonValue → Bool
  | .null, .null => true
  | .bool a, .bool b => a == b
  | .num a, .num b => a == b
  | .str a, .str b => a == b
  | .arr a, .arr b => JsonValue.beqList a b
  | .obj a, .obj b => JsonValue.beqFields a b
  | _, _ => false
  termination_by structural a => a

/-- Elementwise deep equality of JSON value lists. -/
def JsonValue.beqList : List JsonValue → List JsonValue → Bool
  | [], [] => true
  | a :: as, b :: bs => JsonValue.beq a b && JsonValue.beqList as bs
  | _, _ => false
  termination_by structural a => a

/-- Elementwise deep equality of JSON object field lists. -/
def JsonValue.beqFields : List (String × JsonValue) → List (String × JsonValue) → Bool
  | [], [] => true
  | (k1, v1) :: as, (k2, v2) :: bs =>
    k1 == k2 && JsonValue.beq v1 v2 && JsonValue.beqFields as bs
  | _, _ => false
  termination_by structural a => a

end

mutual

theorem JsonValue.beq_iff : ∀ a b : JsonValue, JsonValue.beq a b = true ↔ a = b
  | .null, .null => by simp [JsonValue.beq]
  | .null, .bool _ | .null, .num _ | .null, .str _ | .null, .arr _ | .null, .obj _ =>
    by simp [JsonValue.beq]
  | .bool _, .null | .bool _, .num _ | .bool _, .str _ | .bool _, .arr _ | .bool _, .obj _ =>
    by simp [JsonValue.beq]
  | .bool a, .bool b => by simp [JsonValue.beq]
  | .num _, .null | .num _, .bool _ | .num _, .str _ | .num _, .arr _ | .num _, .obj _ =>
    by simp [JsonValue.beq]
  | .num a, .num b => by simp [JsonValue.beq]
  | .str _, .null | .str _, .bool _ | .str _, .num _ | .str _, .arr _ | .str _, .obj _ =>
    by simp [JsonValue.beq]
  | .str a, .str b => by simp [JsonValue.beq]
  | .arr _, .null | .arr _, .bool _ | .arr _, .num _ | .arr _, .str _ | .arr _, .obj _ =>
    by simp [JsonValue.beq]
  | .arr a, .arr b => by
    simp only [JsonValue.beq, JsonValue.beqList_iff a b, JsonValue.arr.injEq]
  | .obj _, .null | .obj _, .bool _ | .obj _, .num _ | .obj _, .str _ | .obj _, .arr _ =>
    by simp [JsonValue.beq]
  | .obj a, .obj b => by
    simp only [JsonValue.beq, JsonValue.beqFields_iff a b, JsonValue.obj.injEq]

theorem JsonValue.beqList_iff : ∀ a b : List JsonValue, JsonValue.beqList a b = true ↔ a = b
  | [], [] => by simp [JsonValue.beqList]
  | [], _ :: _ => by simp [JsonValue.beqList]
  | _ :: _, [] => by simp [JsonValue.beqList]
  | a :: as, b :: bs => by
    simp only [JsonValue.beqList, Bool.and_eq_true, JsonValue.beq_iff a b,
      JsonValue.beqList_iff as bs, List.cons.injEq]

theorem JsonValue.beqFields_iff :
    ∀ a b : List (String × JsonValue), JsonValue.beqFields a b = true ↔ a = b
  | [], [] => by simp [JsonValue.beqFields]
  | [], _ :: _ => by simp [JsonValue.beqFields]
  | _ :: _, [] => by simp [JsonValue.beqFields]
  | (k1, v1) :: as, (k2, v2) :: bs => by
    simp only [JsonValue.beqFields, Bool.and_eq_true, JsonValue.beq_iff v1 v2,
      JsonValue.beqFields_iff as bs, List.cons.injEq, beq_iff_eq, Prod.mk.injEq]

end

instance : DecidableEq JsonValue := fun a b =>
  decidable_of_iff (JsonValue.beq a b = true) (JsonValue.beq_iff a b)

/-- Escape a character sequence for a JSON string literal: quote and
backslash are preceded by a backslash. -/
def escChars : List Char → List Char
  | [] => []
  | c :: cs => if c = '"' ∨ c = '\\' then '\\' :: c :: escChars cs else c :: escChars cs

/-- Render a string as a quoted, escaped JSON string literal. -/
def strQuote (s : String) : List Char := '"' :: (escChars s.toList ++ ['"'])

/-- The character for decimal digit `d` (correct for `d < 10`). -/
def digitChar (d : Nat) : Char := Char.ofNat (48 + d)

/-- Fuel-indexed digit expansion; the fuel is ample whenever `n < fuel`. -/
def natCharsAux : Nat → Nat → List Char
  | 0, _ => []
  | fuel + 1, n =>
    if n < 10 then [digitChar n] else natCharsAux fuel (n / 10) ++ [digitChar (n % 10)]

/-- Decimal digits of a natural number, most significant first. -/
def natChars (n : Nat) : List Char := natCharsAux (n + 1) n

/-- Number of decimal digits, matching the recursion of `natChars`. -/
def numDigits (n : Nat) : Nat :=
  if n < 10 then 1 else numDigits (n / 10) + 1
  decreasing_by exact Nat.div_lt_self (by omega) (by omega)

/-- Decimal rendering of an integer. -/
def intChars (i : Int) : List Char :=
  if i < 0 then '-' :: natChars i.natAbs else natChars i.natAbs

mutual

/-- Characters of the compact JSON rendering of a value: the model of the
platform `JSON.stringify` (no spacing argument). -/
def strChars : JsonValue → List Char
  | .null => ['n', 'u', 'l', 'l']
  | .bool b => if b then ['t', 'r', 'u', 'e'] else ['f', 'a', 'l', 's', 'e']
  | .num i => intChars i
  | .str s => strQuote s
  | .arr [] => ['[', ']']
  | .arr (v :: vs) => '[' :: (strChars v ++ strElems vs ++ [']'])
  | .obj [] => ['{', '}']
  | .obj ((k, v) :: fs) => '{' :: (strQuote k ++ ':' :: strChars v ++ strFields fs ++ ['}'])
  termination_by structural v => v

/-- Comma-separated continuation of an array rendering. -/
def strElems : List JsonValue → List Char
  | [] => []
  | v :: vs => ',' :: (strChars v ++ strElems vs)
  termination_by structural l => l

/-- Comma-separated continuation of an object rendering. -/
def strFields : List (String × JsonValue) → List Char
  | [] => []
  | (k, v) :: fs => ',' :: (strQuote k ++ ':' :: strChars v ++ strFields fs)
  termination_by structural l => l

end

/-- Model of the platform `JSON.stringify` applied to a decoded JSON value. -/
def stringify (v : JsonValue) : String := String.mk (strChars v)

/-- Numeric value of a decimal digit character. -/
def digitVal (c : Char) : Nat := c.toNat - 48

/-- Consume a run of decimal digits, folding them onto an accumulator. -/
def parseDigitsAux : List Char → Nat → Nat × List Char
  | [], acc => (acc, [])
  | c :: cs, acc =>
    if c.isDigit then parseDigitsAux cs (acc * 10 + digitVal c) else (acc, c :: cs)

/-- Parse the body of a JSON string literal (after the opening quote) up to
and including the closing quote, handling the two modelled escapes. -/
def parseStrBody : List Char → Option (List Char × List Char)
  | [] => none
  | c :: rest =>
    if c = '\\' then
      match rest with
      | [] => none
      | e :: rest2 =>
        if e = '"' ∨ e = '\\' then
          (parseStrBody rest2).map (fun p => (e :: p.1, p.2))
        else none
    else if c = '"' then some ([], rest)
    else (parseStrBody rest).map (fun p => (c :: p.1, p.2))
  termination_by structural cs => cs

/-- Whether a character sequence begins with a decimal digit. -/
def headIsDigit : List Char → Bool
  | [] => false
  | c :: _ => c.isDigit

/-- After one array element: a closing bracket ends the array, a comma
continues with the given recursive continuation. -/
def parseElemsStep (recur : List Char → Option (List JsonValue × List Char))
    (v : JsonValue) : List Char → Option (List JsonValue × List Char)
  | [] => none
  | c :: r2 =>
    if c = ']' then some ([v], r2)
    else if c = ',' then (recur r2).map (fun q => (v :: q.1, q.2))
    else none

/-- After one object value: a closing brace ends the object, a comma
continues with the given recursive continuation. -/
def parseFieldsVal (recur : List Char → Option (List (String × JsonValue) × List Char))
    (k : String) (v : JsonValue) : List Char → Option (List (String × JsonValue) × List Char)
  | [] => none
  | c :: r4 =>
    if c = '}' then some ([(k, v)], r4)
    else if c = ',' then (recur r4).map (fun q => ((k, v) :: q.1, q.2))
    else none

/-- After an object key: expect a colon, then parse the value with the given
value parser and continue. -/
def parseFieldsKey (pv : List Char → Option (JsonValue × List Char))
    (recur : List Char → Option (List (String × JsonValue) × List Char))
    (k : String) : List Char → Option (List (String × JsonValue) × List Char)
  | [] => none
  | c :: r2 =>
    if c = ':' then (pv r2).bind (fun p => parseFieldsVal recur k p.1 p.2)
    else none

mutual

/-- Fuel-indexed model of the platform `JSON.parse` on the canonical form
produced by `strChars`: returns the parsed value and the unconsumed suffix. -/
def parseValue : Nat → List Char → Option (JsonValue × List Char)
  | 0, _ => none
  | _ + 1, [] => none
  | fuel + 1, c :: rest =>
    if c.isDigit then
      let p := parseDigitsAux rest (digitVal c)
      some (.num (p.1 : Int), p.2)
    else if c = '-' then
      match rest with
      | [] => none
      | c2 :: rest2 =>
        if c2.isDigit then
          let p := parseDigitsAux rest2 (digitVal c2)
          some (.num (-(p.1 : Int)), p.2)
        else none
    else if c = '"' then
      (parseStrBody rest).map (fun p => (.str (String.mk p.1), p.2))
    else if c = '[' then
      match rest with
      | [] => none
      | c2 :: rest2 =>
        if c2 = ']' then some (.arr [], rest2)
        else (parseElems fuel rest).map (fun p => (.arr p.1, p.2))
    else if c = '{' then
      match rest with
      | [] => none
      | c2 :: rest2 =>
        if c2 = '}' then some (.obj [], rest2)
        else (parseFields fuel rest).map (fun p => (.obj p.1, p.2))
    else
      match c :: rest with
      | 'n' :: 'u' :: 'l' :: 'l' :: r => some (.null, r)
      | 't' :: 'r' :: 'u' :: 'e' :: r => some (.bool true, r)
      | 'f' :: 'a' :: 'l' :: 's' :: 'e' :: r => some (.bool false, r)
      | _ => none

/-- Parse one or more comma-separated values followed by a closing bracket. -/
def parseElems : Nat → List Char → Option (List JsonValue × List Char)
  | 0, _ => none
  | fuel + 1, cs =>
    (parseValue fuel cs).bind (fun p => parseElemsStep (parseElems fuel) p.1 p.2)

/-- Parse one or more comma-separated key-value pairs followed by a closing
brace. -/
def parseFields : Nat → List Char → Option (List (String × JsonValue) × List Char)
  | 0, _ => none
  | _ + 1, [] => none
  | fuel + 1, c :: rest =>
    if c = '"' then
      (parseStrBody rest).bind (fun pk =>
        parseFieldsKey (parseValue fuel) (parseFields fuel) (String.mk pk.1) pk.2)
    else none

end

/-- Model of the platform `JSON.parse`: succeeds exactly when the whole input
is one canonical JSON value. -/
def parseJson (s : String) : Option JsonValue :=
  match parseValue (s.length + 1) s.toList with
  | some (v, []) => some v
  | _ => none

theorem digitChar_isDigit {d : Nat} (h : d < 10) : (digitChar d).isDigit = true := by
  interval_cases d <;> decide

theorem digitVal_digitChar {d : Nat} (h : d < 10) : digitVal (digitChar d) = d := by
  interval_cases d <;> decide

theorem natCharsAux_irrel (n : Nat) :
    ∀ f g, n < f → n < g → natCharsAux f n = natCharsAux g n := by
  induction n using Nat.strong_induction_on with
  | _ n ih =>
    intro f g hf hg
    cases f with
    | zero => omega
    | succ f =>
      cases g with
      | zero => omega
      | succ g =>
        simp only [natCharsAux]
        by_cases h10 : n < 10
        · simp [h10]
        · have hdiv : n / 10 < n := Nat.div_lt_self (by omega) (by omega)
          simp only [if_neg h10]
          rw [ih (n / 10) hdiv f g (by omega) (by omega)]

theorem natChars_eq (n : Nat) :
    natChars n = if n < 10 then [digitChar n] else natChars (n / 10) ++ [digitChar (n % 10)] := by
  show natCharsAux (n + 1) n = _
  simp only [natCharsAux]
  by_cases h10 : n < 10
  · simp [h10]
  · have hdiv : n / 10 < n := Nat.div_lt_self (by omega) (by omega)
    simp only [if_neg h10]
    rw [natCharsAux_irrel (n / 10) n (n / 10 + 1) (by omega) (by omega)]
    rfl

theorem natChars_ne_nil (n : Nat) : natChars n ≠ [] := by
  rw [natChars_eq]; split <;> simp

theorem natChars_digits (n : Nat) : ∀ c ∈ natChars n, c.isDigit = true := by
  induction n using Nat.strong_induction_on with
  | _ n ih =>
    rw [natChars_eq]
    by_cases h10 : n < 10
    · simp only [if_pos h10, List.mem_singleton]
      rintro c rfl
      exact digitChar_isDigit h10
    · simp only [if_neg h10, List.mem_append, List.mem_singleton]
      rintro c (hc | rfl)
      · exact ih (n / 10) (Nat.div_lt_self (by omega) (by omega)) c hc
      · exact digitChar_isDigit (Nat.mod_lt _ (by omega))

theorem parseDigitsAux_stop {rest : List Char} (h : headIsDigit rest = false) (acc : Nat) :
    parseDigitsAux rest acc = (acc, rest) := by
  cases rest with
  | nil => rfl
  | cons c cs =>
    simp only [headIsDigit] at h
    simp [parseDigitsAux, h]

theorem parseDigitsAux_natChars (n : Nat) :
    ∀ acc rest, parseDigitsAux (natChars n ++ rest) acc =
      parseDigitsAux rest (acc * 10 ^ numDigits n + n) := by
  induction n using Nat.strong_induction_on with
  | _ n ih =>
    intro acc rest
    rw [natChars_eq, numDigits]
    by_cases h10 : n < 10
    · simp only [if_pos h10, List.singleton_append]
      simp [parseDigitsAux, digitChar_isDigit h10, digitVal_digitChar h10]
    · have hdiv : n / 10 < n := Nat.div_lt_self (by omega) (by omega)
      have hm : n % 10 < 10 := Nat.mod_lt _ (by omega)
      simp only [if_neg h10, List.append_assoc, List.singleton_append]
      rw [ih (n / 10) hdiv acc (digitChar (n % 10) :: rest)]
      simp only [parseDigitsAux, digitChar_isDigit hm, digitVal_digitChar hm, if_pos]
      congr 1
      have hdm : n / 10 * 10 + n % 10 = n := by omega
      calc (acc * 10 ^ numDigits (n / 10) + n / 10) * 10 + n % 10
      _ = acc * 10 ^ (numDigits (n / 10) + 1) + (n / 10 * 10 + n % 10) := by
        rw [pow_succ]; ring
      _ = acc * 10 ^ (numDigits (n / 10) + 1) + n := by rw [hdm]

theorem natChars_parse {n : Nat} {c : Char} {t rest : List Char}
    (hct : natChars n = c :: t) (hrest : headIsDigit rest = false) :
    parseDigitsAux (t ++ rest) (digitVal c) = (n, rest) := by
  have hcdig : c.isDigit = true :=
    natChars_digits n c (by rw [hct]; exact List.mem_cons_self c t)
  have h0 := parseDigitsAux_natChars n 0 rest
  rw [hct, List.cons_append] at h0
  rw [show parseDigitsAux (c :: (t ++ rest)) 0 = parseDigitsAux (t ++ rest) (digitVal c) by
    simp [parseDigitsAux, hcdig]] at h0
  rw [parseDigitsAux_stop hrest] at h0
  simpa using h0

theorem parseStrBody_esc : ∀ (l rest : List Char),
    parseStrBody (escChars l ++ '"' :: rest) = some (l, rest)
  | [], rest => by
    simp only [escChars, List.nil_append]
    rw [parseStrBody.eq_def]
    simp
  | c :: cs, rest => by
    by_cases hc : c = '"' ∨ c = '\\'
    · rw [escChars, if_pos hc, List.cons_append, List.cons_append, parseStrBody.eq_def]
      simp [hc, parseStrBody_esc cs rest]
    · push_neg at hc
      rw [escChars, if_neg (by tauto), List.cons_append, parseStrBody.eq_def]
      simp [hc.1, hc.2, parseStrBody_esc cs rest]

theorem strChars_ne_nil (v : JsonValue) : strChars v ≠ [] := by
  cases v with
  | null => simp [strChars]
  | bool b => cases b <;> simp [strChars]
  | num i =>
    simp only [strChars, intChars]
    split
    · simp
    · exact natChars_ne_nil _
  | str s => simp [strChars, strQuote]
  | arr vs => cases vs <;> simp [strChars]
  | obj fs =>
    match fs with
    | [] => simp [strChars]
    | (k, v) :: fs => simp [strChars]

theorem isDigit_ne_rbrack {c : Char} (h : c.isDigit = true) : c ≠ ']' := by
  intro hc
  rw [hc] at h
  exact absurd h (by decide)

theorem strChars_head_ne_rbrack :
    ∀ {v : JsonValue} {c : Char} {t : List Char}, strChars v = c :: t → c ≠ ']' := by
  intro v c t h
  cases v with
  | null =>
    simp only [strChars, List.cons.injEq] at h
    obtain ⟨rfl, -⟩ := h
    decide
  | bool b =>
    cases b with
    | false =>
      have e : strChars (.bool false) = 'f' :: ['a', 'l', 's', 'e'] := rfl
      rw [e] at h
      injection h with h1 _
      rw [← h1]
      decide
    | true =>
      have e : strChars (.bool true) = 't' :: ['r', 'u', 'e'] := rfl
      rw [e] at h
      injection h with h1 _
      rw [← h1]
      decide
  | num i =>
    simp only [strChars, intChars] at h
    split at h
    · simp only [List.cons.injEq] at h
      obtain ⟨rfl, -⟩ := h
      decide
    · exact isDigit_ne_rbrack (natChars_digits _ c (by rw [h]; exact List.mem_cons_self c t))
  | str s =>
    simp only [strChars, strQuote, List.cons.injEq] at h
    obtain ⟨rfl, -⟩ := h
    decide
  | arr vs =>
    match vs with
    | [] =>
      simp only [strChars, List.cons.injEq] at h
      obtain ⟨rfl, -⟩ := h
      decide
    | v :: vs =>
      simp only [strChars, List.cons.injEq] at h
      obtain ⟨rfl, -⟩ := h
      decide
  | obj fs =>
    match fs with
    | [] =>
      simp only [strChars, List.cons.injEq] at h
      obtain ⟨rfl, -⟩ := h
      decide
    | (k, v) :: fs =>
      simp only [strChars, List.cons.injEq] at h
      obtain ⟨rfl, -⟩ := h
      decide

theorem parseValue_quote (f : Nat) (rest : List Char) :
    parseValue (f + 1) ('"' :: rest) =
      (parseStrBody rest).map (fun p => (.str (String.mk p.1), p.2)) := rfl

theorem parseValue_dash {c : Char} (f : Nat) (t : List Char) (h : c.isDigit = true) :
    parseValue (f + 1) ('-' :: c :: t) =
      some (.num (-((parseDigitsAux t (digitVal c)).1 : Int)),
        (parseDigitsAux t (digitVal c)).2) := by
  rw [parseValue.eq_def]
  simp [h]

theorem parseValue_digit {c : Char} (f : Nat) (t : List Char) (h : c.isDigit = true) :
    parseValue (f + 1) (c :: t) =
      some (.num ((parseDigitsAux t (digitVal c)).1 : Int),
        (parseDigitsAux t (digitVal c)).2) := by
  rw [parseValue.eq_def]
  simp [h]

theorem parseValue_lbrack_cons {c : Char} (f : Nat) (t : List Char) (hc : c ≠ ']') :
    parseValue (f + 1) ('[' :: c :: t) =
      (parseElems f (c :: t)).map (fun p => (.arr p.1, p.2)) := by
  rw [parseValue.eq_def]
  simp [hc]

theorem parseValue_lbrace_quote (f : Nat) (t : List Char) :
    parseValue (f + 1) ('{' :: '"' :: t) =
      (parseFields f ('"' :: t)).map (fun p => (.obj p.1, p.2)) := rfl

theorem parseElems_some (g : Nat) {cs : List Char} {v : JsonValue} {r : List Char}
    (h : parseValue g cs = some (v, r)) :
    parseElems (g + 1) cs = parseElemsStep (parseElems g) v r := by
  have e0 : parseElems (g + 1) cs =
      (parseValue g cs).bind (fun p => parseElemsStep (parseElems g) p.1 p.2) := rfl
  rw [e0, h]
  rfl

theorem parseFields_some (g : Nat) {t kk r1 : List Char}
    (h : parseStrBody t = some (kk, r1)) :
    parseFields (g + 1) ('"' :: t) =
      parseFieldsKey (parseValue g) (parseFields g) (String.mk kk) r1 := by
  have e0 : parseFields (g + 1) ('"' :: t) =
      (parseStrBody t).bind (fun pk =>
        parseFieldsKey (parseValue g) (parseFields g) (String.mk pk.1) pk.2) := rfl
  rw [e0, h]
  rfl

theorem parseElemsStep_rbrack (recur : List Char → Option (List JsonValue × List Char))
    (v : JsonValue) (rest : List Char) :
    parseElemsStep recur v (']' :: rest) = some ([v], rest) := rfl

theorem parseElemsStep_comma (recur : List Char → Option (List JsonValue × List Char))
    (v : JsonValue) (X : List Char) :
    parseElemsStep recur v (',' :: X) = (recur X).map (fun q => (v :: q.1, q.2)) := rfl

theorem parseFieldsKey_colon (pv : List Char → Option (JsonValue × List Char))
    (recur : List Char → Option (List (String × JsonValue) × List Char))
    (k : String) (X : List Char) :
    parseFieldsKey pv recur k (':' :: X) =
      (pv X).bind (fun p => parseFieldsVal recur k p.1 p.2) := rfl

theorem parseFieldsVal_rbrace (recur : List Char → Option (List (String × JsonValue) × List Char))
    (k : String) (v : JsonValue) (rest : List Char) :
    parseFieldsVal recur k v ('}' :: rest) = some ([(k, v)], rest) := rfl

theorem parseFieldsVal_comma (recur : List Char → Option (List (String × JsonValue) × List Char))
    (k : String) (v : JsonValue) (X : List Char) :
    parseFieldsVal recur k v (',' :: X) = (recur X).map (fun q => ((k, v) :: q.1, q.2)) := rfl

theorem parse_strChars (fuel : Nat) :
    (∀ v rest, (strChars v).length ≤ fuel → headIsDigit rest = false →
      parseValue fuel (strChars v ++ rest) = some (v, rest)) ∧
    (∀ v vs rest, (strChars v).length + (strElems vs).length + 1 ≤ fuel →
      parseElems fuel (strChars v ++ (strElems vs ++ (']' :: rest))) = some (v :: vs, rest)) ∧
    (∀ (k : String) v fs rest,
      (strQuote k).length + (strChars v).length + (strFields fs).length + 2 ≤ fuel →
      parseFields fuel
        ('"' :: (escChars k.toList ++ ('"' :: (':' :: (strChars v ++ (strFields fs ++ ('}' :: rest))))))) =
        some ((k, v) :: fs, rest)) := by
  induction fuel using Nat.strong_induction_on with
  | _ fuel ih =>
    refine ⟨?_, ?_, ?_⟩
    · intro v rest hlen hrest
      have hvpos : 0 < (strChars v).length := List.length_pos.mpr (strChars_ne_nil v)
      cases fuel with
      | zero => omega
      | succ f =>
        cases v with
        | null => exact rfl
        | bool b => cases b <;> exact rfl
        | num i =>
          show parseValue (f + 1) (intChars i ++ rest) = some (.num i, rest)
          rw [intChars]
          by_cases hneg : i < 0
          · rw [if_pos hneg]
            obtain ⟨c, t, hct⟩ : ∃ c t, natChars i.natAbs = c :: t := by
              match h : natChars i.natAbs with
              | [] => exact absurd h (natChars_ne_nil _)
              | c :: t => exact ⟨c, t, rfl⟩
            rw [hct]
            have hcd : c.isDigit = true :=
              natChars_digits _ c (by rw [hct]; exact List.mem_cons_self c t)
            simp only [List.cons_append]
            rw [parseValue_dash f (t ++ rest) hcd, natChars_parse hct hrest]
            have hi : (-(i.natAbs : Int)) = i := by omega
            rw [hi]
          · rw [if_neg hneg]
            obtain ⟨c, t, hct⟩ : ∃ c t, natChars i.natAbs = c :: t := by
              match h : natChars i.natAbs with
              | [] => exact absurd h (natChars_ne_nil _)
              | c :: t => exact ⟨c, t, rfl⟩
            rw [hct]
            have hcd : c.isDigit = true :=
              natChars_digits _ c (by rw [hct]; exact List.mem_cons_self c t)
            simp only [List.cons_append]
            rw [parseValue_digit f (t ++ rest) hcd, natChars_parse hct hrest]
            have hi : ((i.natAbs : Nat) : Int) = i := by omega
            rw [hi]
        | str s =>
          obtain ⟨l⟩ := s
          have e1 : strChars (.str ⟨l⟩) ++ rest = '"' :: (escChars l ++ '"' :: rest) := by
            show ('"' :: (escChars l ++ ['"'])) ++ rest = _
            simp [List.append_assoc]
          rw [e1, parseValue_quote, parseStrBody_esc l rest]
          rfl
        | arr vs =>
          cases vs with
          | nil => exact rfl
          | cons v vs =>
            have hlen' : (strChars v).length + (strElems vs).length + 1 ≤ f := by
              have e0 : strChars (.arr (v :: vs)) = '[' :: (strChars v ++ strElems vs ++ [']']) :=
                rfl
              rw [e0] at hlen
              simp only [List.length_cons, List.length_append, List.length_singleton] at hlen
              omega
            obtain ⟨c, t, hct⟩ : ∃ c t, strChars v = c :: t := by
              match h : strChars v with
              | [] => exact absurd h (strChars_ne_nil _)
              | c :: t => exact ⟨c, t, rfl⟩
            have hcne : c ≠ ']' := strChars_head_ne_rbrack hct
            have e1 : strChars (.arr (v :: vs)) ++ rest =
                '[' :: (c :: (t ++ (strElems vs ++ (']' :: rest)))) := by
              show ('[' :: (strChars v ++ strElems vs ++ [']'])) ++ rest = _
              rw [hct]
              simp [List.append_assoc]
            rw [e1, parseValue_lbrack_cons f _ hcne, ← List.cons_append, ← hct,
              (ih f (by omega)).2.1 v vs rest hlen']
            rfl
        | obj fs =>
          cases fs with
          | nil => exact rfl
          | cons kv fs =>
            obtain ⟨k, v⟩ := kv
            have hlen' :
                (strQuote k).length + (strChars v).length + (strFields fs).length + 2 ≤ f := by
              have e0 : strChars (.obj ((k, v) :: fs)) =
                  '{' :: (strQuote k ++ ':' :: strChars v ++ strFields fs ++ ['}']) := rfl
              rw [e0] at hlen
              simp only [List.length_cons, List.length_append, List.length_singleton] at hlen
              omega
            have e2 : strChars (.obj ((k, v) :: fs)) ++ rest =
                '{' :: ('"' :: (escChars k.toList ++
                  ('"' :: (':' :: (strChars v ++ (strFields fs ++ ('}' :: rest))))))) := by
              show ('{' :: (strQuote k ++ ':' :: strChars v ++ strFields fs ++ ['}'])) ++ rest = _
              rw [strQuote]
              simp [List.append_assoc]
            rw [e2, parseValue_lbrace_quote, (ih f (by omega)).2.2 k v fs rest hlen']
            rfl
    · intro v vs rest hlen
      have hvpos : 0 < (strChars v).length := List.length_pos.mpr (strChars_ne_nil v)
      cases fuel with
      | zero => omega
      | succ g =>
        have hd : headIsDigit (strElems vs ++ (']' :: rest)) = false := by
          cases vs with
          | nil => rfl
          | cons v2 vs2 => rfl
        have hA := (ih g (by omega)).1 v (strElems vs ++ (']' :: rest)) (by omega) hd
        rw [parseElems_some g hA]
        cases vs with
        | nil => exact rfl
        | cons v2 vs2 =>
          have hlen2 : (strChars v2).length + (strElems vs2).length + 1 ≤ g := by
            have e0 : strElems (v2 :: vs2) = ',' :: (strChars v2 ++ strElems vs2) := rfl
            rw [e0] at hlen
            simp only [List.length_cons, List.length_append] at hlen
            omega
          have hB := (ih g (by omega)).2.1 v2 vs2 rest hlen2
          have e1 : strElems (v2 :: vs2) ++ (']' :: rest) =
              ',' :: ((strChars v2 ++ strElems vs2) ++ (']' :: rest)) := rfl
          rw [e1, parseElemsStep_comma, List.append_assoc, hB]
          rfl
    · intro k v fs rest hlen
      have hqpos : 0 < (strQuote k).length := by
        rw [strQuote]
        simp
      cases fuel with
      | zero => omega
      | succ g =>
        have hd : headIsDigit (strFields fs ++ ('}' :: rest)) = false := by
          cases fs with
          | nil => rfl
          | cons kv fs2 =>
            obtain ⟨k2, v2⟩ := kv
            rfl
        have hA := (ih g (by omega)).1 v (strFields fs ++ ('}' :: rest)) (by omega) hd
        have hk : String.mk k.toList = k := by
          obtain ⟨l⟩ := k
          rfl
        rw [parseFields_some g (parseStrBody_esc k.toList
          (':' :: (strChars v ++ (strFields fs ++ ('}' :: rest))))), hk,
          parseFieldsKey_colon, hA]
        rw [show (Option.bind (some (v, strFields fs ++ ('}' :: rest)))
            (fun p => parseFieldsVal (parseFields g) k p.1 p.2)) =
            parseFieldsVal (parseFields g) k v (strFields fs ++ ('}' :: rest)) from rfl]
        cases fs with
        | nil => exact rfl
        | cons kv fs2 =>
          obtain ⟨k2, v2⟩ := kv
          have hlen2 :
              (strQuote k2).length + (strChars v2).length + (strFields fs2).length + 2 ≤ g := by
            have e0 : strFields ((k2, v2) :: fs2) =
                ',' :: (strQuote k2 ++ ':' :: strChars v2 ++ strFields fs2) := rfl
            rw [e0] at hlen
            simp only [List.length_cons, List.length_append] at hlen
            omega
          have hC := (ih g (by omega)).2.2 k2 v2 fs2 rest hlen2
          have e1 : strFields ((k2, v2) :: fs2) ++ ('}' :: rest) =
              ',' :: ((strQuote k2 ++ ':' :: strChars v2 ++ strFields fs2) ++ ('}' :: rest)) :=
            rfl
          have e2 : (strQuote k2 ++ ':' :: strChars v2 ++ strFields fs2) ++ ('}' :: rest) =
              '"' :: (escChars k2.toList ++
                ('"' :: (':' :: (strChars v2 ++ (strFields fs2 ++ ('}' :: rest)))))) := by
            rw [strQuote]
            simp [List.append_assoc]
          rw [e1, parseFieldsVal_comma, e2, hC]
          rfl

/-- Parsing inverts serialization: the platform `JSON.parse` of a
`JSON.stringify` output recovers the original value. -/
theorem parseJson_stringify (v : JsonValue) : parseJson (stringify v) = some v := by
  have h := (parse_strChars ((strChars v).length + 1)).1 v [] (by omega) rfl
  rw [List.append_nil] at h
  have e1 : (stringify v).toList = strChars v := rfl
  have e2 : (stringify v).length = (strChars v).length := rfl
  rw [parseJson, e1, e2, h]

mutual

/-- Pretty rendering with two-space indentation: the model of the platform
call `JSON.stringify(value, null, 2)` used for the failure diagnostic. -/
def prettyChars : Nat → JsonValue → List Char
  | _, .null => ['n', 'u', 'l', 'l']
  | _, .bool b => if b then ['t', 'r', 'u', 'e'] else ['f', 'a', 'l', 's', 'e']
  | _, .num i => intChars i
  | _, .str s => strQuote s
  | _, .arr [] => ['[', ']']
  | ind, .arr (v :: vs) =>
    '[' :: '\n' :: (List.replicate (ind + 2) ' ' ++ prettyChars (ind + 2) v ++
      prettyElems (ind + 2) vs ++ '\n' :: (List.replicate ind ' ' ++ [']']))
  | _, .obj [] => ['{', '}']
  | ind, .obj ((k, v) :: fs) =>
    '{' :: '\n' :: (List.replicate (ind + 2) ' ' ++ strQuote k ++ ':' :: ' ' ::
      (prettyChars (ind + 2) v ++ prettyFields (ind + 2) fs ++
        '\n' :: (List.replicate ind ' ' ++ ['}'])))
  termination_by structural _n v => v

def prettyElems : Nat → List JsonValue → List Char
  | _, [] => []
  | ind, v :: vs =>
    ',' :: '\n' :: (List.replicate ind ' ' ++ prettyChars ind v ++ prettyElems ind vs)
  termination_by structural _n l => l

def prettyFields : Nat → List (String × JsonValue) → List Char
  | _, [] => []
  | ind, (k, v) :: fs =>
    ',' :: '\n' :: (List.replicate ind ' ' ++ strQuote k ++ ':' :: ' ' ::
      (prettyChars ind v ++ prettyFields ind fs))
  termination_by structural _n l => l

end

/-- The indent-2 pretty printer `JSON.stringify(v, null, 2)`. -/
def prettyStringify (v : JsonValue) : String := String.mk (prettyChars 0 v)

/-- Modelled from the zod library: the fragment of caller-suppliable zod
schemas that the client exercises (`z.string`, `z.number`, `z.boolean`,
`z.array`, `z.object`). The repository treats the schema as an abstract
`ZodSchema<T>` capability; this inductive stands for the concrete schemas a
caller can pass. -/
inductive Schema where
  | string : Schema
  | number : Schema
  | boolean : Schema
  | array : Schema → Schema
  | object : List (String × Schema) → Schema

mutual

/-- Modelled from the zod library: `schema.parse(value)` under the default
object semantics (required keys, unknown keys stripped, schema-shape output
order). The fuel bounds the joint structural descent and `Schema.parse`
supplies more of it than any run can consume, so it exists only to make the
recursion structural; it never changes the result. -/
def Schema.parseGo : Nat → Schema → JsonValue → Option JsonValue
  | 0, _, _ => none
  | fuel + 1, s, v =>
    match s, v with
    | .string, .str s0 => some (.str s0)
    | .number, .num n => some (.num n)
    | .boolean, .bool b => some (.bool b)
    | .array s0, .arr vs => (Schema.parseItemsGo fuel s0 vs).map .arr
    | .object fs, .obj kvs => (Schema.parsePropsGo fuel fs kvs).map .obj
    | _, _ => none

/-- Elementwise `z.array` parsing: every element must parse. -/
def Schema.parseItemsGo : Nat → Schema → List JsonValue → Option (List JsonValue)
  | 0, _, _ => none
  | fuel + 1, s, vs =>
    match vs with
    | [] => some []
    | v :: rest =>
      match Schema.parseGo fuel s v, Schema.parseItemsGo fuel s rest with
      | some v2, some rest2 => some (v2 :: rest2)
      | _, _ => none

/-- Fieldwise `z.object` parsing: each declared key must be present and
parse; undeclared keys of the input are dropped (zod strip mode). -/
def Schema.parsePropsGo :
    Nat → List (String × Schema) → List (String × JsonValue) →
      Option (List (String × JsonValue))
  | 0, _, _ => none
  | fuel + 1, fs, kvs =>
    match fs with
    | [] => some []
    | (k, s) :: rest =>
      match (kvs.lookup k).bind (Schema.parseGo fuel s), Schema.parsePropsGo fuel rest kvs with
      | some v2, some rest2 => some ((k, v2) :: rest2)
      | _, _ => none

end

mutual

/-- Node count of a schema, used only to supply ample parsing fuel. -/
def Schema.size : Schema → Nat
  | .string => 1
  | .number => 1
  | .boolean => 1
  | .array s => s.size + 1
  | .object fs => Schema.sizeFields fs + 1
  termination_by structural s => s

/-- Node count of an object schema field list. -/
def Schema.sizeFields : List (String × Schema) → Nat
  | [] => 1
  | (_, s) :: fs => Schema.size s + Schema.sizeFields fs + 1
  termination_by structural l => l

end

mutual

/-- Node count of a JSON value, used only to supply ample parsing fuel. -/
def JsonValue.size : JsonValue → Nat
  | .null => 1
  | .bool _ => 1
  | .num _ => 1
  | .str _ => 1
  | .arr vs => JsonValue.sizeItems vs + 1
  | .obj fs => JsonValue.sizeProps fs + 1
  termination_by structural v => v

/-- Node count of a JSON value list. -/
def JsonValue.sizeItems : List JsonValue → Nat
  | [] => 1
  | v :: vs => v.size + JsonValue.sizeItems vs + 1
  termination_by structural l => l

/-- Node count of a JSON object field list. -/
def JsonValue.sizeProps : List (String × JsonValue) → Nat
  | [] => 1
  | (_, v) :: fs => v.size + JsonValue.sizeProps fs + 1
  termination_by structural l => l

end

/-- `schema.parse(value)` of the zod library (see `Schema.parseGo`): `some`
is a successful parse, `none` a thrown ZodError. -/
def Schema.parse (s : Schema) (v : JsonValue) : Option JsonValue :=
  Schema.parseGo (s.size + v.size + 1) s v

mutual

/-- Modelled from the zod-to-json-schema library: the machine-readable
JSON-Schema rendering of a zod schema, simplified to the type/items/
properties/required core. No claim depends on its exact output; it feeds
only the JSON-instruction system message. -/
def zodToJsonSchema : Schema → JsonValue
  | .string => .obj [("type", .str "string")]
  | .number => .obj [("type", .str "number")]
  | .boolean => .obj [("type", .str "boolean")]
  | .array s => .obj [("type", .str "array"), ("items", zodToJsonSchema s)]
  | .object fs =>
    .obj [("type", .str "object"),
      ("properties", .obj (zodFieldsSchemas fs)),
      ("required", .arr (fs.map (fun p => .str p.1)))]
  termination_by structural s => s

/-- JSON-Schema renderings of an object schema field list. -/
def zodFieldsSchemas : List (String × Schema) → List (String × JsonValue)
  | [] => []
  | (k, s) :: fs => (k, zodToJsonSchema s) :: zodFieldsSchemas fs
  termination_by structural l => l

end

/-- From config.ts: the fixed default temperature. -/
def DEFAULT_TEMPERATURE : Rat := 0

/-- From config.ts: the fixed request timeout in milliseconds. -/
def REQUEST_TIMEOUT_MS : Nat := 10000

/-- The `response_format` values the source type admits: only the literal
`{type: "json_object"}` object. -/
inductive ResponseFormat where
  | json_object : ResponseFormat
deriving DecidableEq

/-- The runtime shape of the merged request object `{...defaults, ...}`
(source type `OpenAiRequestConfig`): one slot per recognized field, `none`
when the property is absent or holds `undefined` - in either case
`JSON.stringify` omits it from the serialized request body, so `none` reads
as "not in the effective request body". The static source type declares
`model` required, but a spread with an explicitly-undefined override can
leave it `undefined` at runtime, so the merged-object model keeps every
field optional. The sampling parameters are modelled as rationals (their
use never depends on float rounding). Field order: model, response_format,
frequency_penalty, temperature, top_p. -/
structure OpenAiRequestConfig where
  model : Option String
  response_format : Option ResponseFormat
  frequency_penalty : Option Rat
  temperature : Option Rat
  top_p : Option Rat
deriving DecidableEq

/-- `Partial<OpenAiRequestConfig>`: each recognized field may be absent
(`none`) or present (`some w`), and a present field may carry an explicit
`undefined` (`some none`) or a value (`some (some x)`). The distinction
matters because JS object spread copies a present field even when its value
is `undefined`, whereas an absent field leaves the earlier layer intact. -/
structure OpenAiRequestConfigOverride where
  model : Option (Option String)
  response_format : Option (Option ResponseFormat)
  frequency_penalty : Option (Option Rat)
  temperature : Option (Option Rat)
  top_p : Option (Option Rat)
deriving DecidableEq

/-- `DEFAULT_REQUEST_CONFIG` from the source: fixed model identifier and the
default temperature; nothing else set. -/
def DEFAULT_REQUEST_CONFIG : OpenAiRequestConfig :=
  ⟨some "gpt-4-1106-preview", none, none, some DEFAULT_TEMPERATURE, none⟩

/-- One field of an object spread: the later (override) layer wins exactly
when it carries the field - including a present field whose value is
`undefined` (`some none`), which unsets the field in the merged object. -/
def overrideField {α : Type} : Option (Option α) → Option α → Option α
  | some w, _ => w
  | none, b => b

/-- The config layering in `query`: spread of `DEFAULT_REQUEST_CONFIG`, then
the `response_format` layer added exactly when a schema is present, then the
caller overrides - later sources win field by field, with a present
`undefined` override removing the field. -/
def mergeConfig (schemaPresent : Bool) (oc : Option OpenAiRequestConfigOverride) :
    OpenAiRequestConfig :=
  let base1 := DEFAULT_REQUEST_CONFIG
  let base2 : OpenAiRequestConfig :=
    if schemaPresent then
      ⟨base1.model, some .json_object, base1.frequency_penalty, base1.temperature, base1.top_p⟩
    else base1
  match oc with
  | none => base2
  | some o =>
    ⟨overrideField o.model base2.model,
      overrideField o.response_format base2.response_format,
      overrideField o.frequency_penalty base2.frequency_penalty,
      overrideField o.temperature base2.temperature,
      overrideField o.top_p base2.top_p⟩

/-- The discriminated union `messageSchema` infers to: role-tagged message
variants, the assistant variant optionally carrying a tool-call string. -/
inductive Message where
  | system (content : String)
  | assistant (content : String) (tool_calls : Option String)
  | tool (content : String)
  | user (content : String)
deriving DecidableEq

/-- The textual content every message variant carries. -/
def Message.content : Message → String
  | .system c => c
  | .assistant c _ => c
  | .tool c => c
  | .user c => c

/-- The four finish-reason literals of `responseSchema`. -/
inductive FinishReason where
  | stop : FinishReason
  | length : FinishReason
  | content_filter : FinishReason
  | tool_calls : FinishReason
deriving DecidableEq

/-- The provider-side string of a finish reason (used in the warning). -/
def FinishReason.asString : FinishReason → String
  | .stop => "stop"
  | .length => "length"
  | .content_filter => "content_filter"
  | .tool_calls => "tool_calls"

/-- `usageSchema`: three numeric token counts (`z.number()`, no bounds). -/
structure Usage where
  completion_tokens : Int
  prompt_tokens : Int
  total_tokens : Int
deriving DecidableEq

/-- One element of the `choices` array of `responseSchema`. -/
structure Choice where
  message : Message
  finish_reason : FinishReason
deriving DecidableEq

/-- The validated response envelope `responseSchema` infers to. -/
structure Response where
  id : String
  model : String
  object : String
  choices : List Choice
  usage : Usage
deriving DecidableEq

/-- The decoded body as an object field list, when it is an object. -/
def asObj : JsonValue → Option (List (String × JsonValue))
  | .obj kvs => some kvs
  | _ => none

/-- A JSON value as a string, when it is one (`z.string()`). -/
def asStr : JsonValue → Option String
  | .str s => some s
  | _ => none

/-- A JSON value as a number, when it is one (`z.number()`; integral model). -/
def asNum : JsonValue → Option Int
  | .num n => some n
  | _ => none

/-- A JSON value as an array, when it is one (`z.array`). -/
def asArr : JsonValue → Option (List JsonValue)
  | .arr vs => some vs
  | _ => none

/-- Translation of `messageSchema`: a discriminated union on `role`, each
variant requiring a string `content`, the assistant variant additionally
accepting an optional string `tool_calls`. -/
def messageParse (v : JsonValue) : Option Message :=
  match asObj v with
  | none => none
  | some kvs =>
    match (kvs.lookup "role").bind asStr with
    | some "system" => ((kvs.lookup "content").bind asStr).map Message.system
    | some "assistant" =>
      match (kvs.lookup "content").bind asStr with
      | none => none
      | some c =>
        match kvs.lookup "tool_calls" with
        | none => some (.assistant c none)
        | some tv =>
          match asStr tv with
          | some t => some (.assistant c (some t))
          | none => none
    | some "tool" => ((kvs.lookup "content").bind asStr).map Message.tool
    | some "user" => ((kvs.lookup "content").bind asStr).map Message.user
    | _ => none

/-- The union of the four finish-reason literals in `responseSchema`. -/
def finishReasonParse (s : String) : Option FinishReason :=
  if s = "stop" then some .stop
  else if s = "length" then some .length
  else if s = "content_filter" then some .content_filter
  else if s = "tool_calls" then some .tool_calls
  else none

/-- One element of the `choices` array of `responseSchema`. -/
def choiceParse (v : JsonValue) : Option Choice :=
  match asObj v with
  | none => none
  | some kvs =>
    match (kvs.lookup "message").bind messageParse,
        ((kvs.lookup "finish_reason").bind asStr).bind finishReasonParse with
    | some m, some fr => some ⟨m, fr⟩
    | _, _ => none

/-- `z.array(...)` over choices: every element must parse; any length
(including zero) is accepted. -/
def choicesParse : List JsonValue → Option (List Choice)
  | [] => some []
  | v :: vs =>
    match choiceParse v, choicesParse vs with
    | some c, some cs => some (c :: cs)
    | _, _ => none

/-- Translation of `usageSchema`: three required numeric fields, with no
sign or integrality constraint beyond being numbers. -/
def usageParse (v : JsonValue) : Option Usage :=
  match asObj v with
  | none => none
  | some kvs =>
    match (kvs.lookup "completion_tokens").bind asNum,
        (kvs.lookup "prompt_tokens").bind asNum,
        (kvs.lookup "total_tokens").bind asNum with
    | some ct, some pt, some tt => some ⟨ct, pt, tt⟩
    | _, _, _ => none

/-- Translation of `responseSchema.parse` on the decoded body: an object
with string `id` and `model`, the literal `object: "chat.completion"`, an
array of choices, and a usage record; unknown keys are stripped. -/
def responseParse (v : JsonValue) : Option Response :=
  match asObj v with
  | none => none
  | some kvs =>
    match (kvs.lookup "id").bind asStr,
        (kvs.lookup "model").bind asStr,
        (kvs.lookup "object").bind asStr,
        (kvs.lookup "choices").bind asArr,
        (kvs.lookup "usage").bind usageParse with
    | some i, some m, some o, some cvs, some u =>
      if o = "chat.completion" then (choicesParse cvs).map (fun cs => ⟨i, m, o, cs, u⟩)
      else none
    | _, _, _, _, _ => none

/-- JavaScript truthiness of a decoded JSON value: null, false, zero and the
empty string are falsy, everything else truthy. -/
def jsTruthy : JsonValue → Bool
  | .null => false
  | .bool b => b
  | .num n => n != 0
  | .str s => s != ""
  | .arr _ => true
  | .obj _ => true

/-- The check `json["error"]` of `send`: property access on the decoded
body followed by a truthiness test. Absent keys and non-object bodies index
to `undefined`, which is falsy. -/
def truthyField (v : JsonValue) (k : String) : Bool :=
  match asObj v with
  | some kvs =>
    match kvs.lookup k with
    | some w => jsTruthy w
    | none => false
  | none => false

/-- Whether the decoded body carries the named field at all (present even
with a falsy value such as `null`). -/
def jsonHasField (v : JsonValue) (k : String) : Bool :=
  match asObj v with
  | some kvs => (kvs.lookup k).isSome
  | none => false

/-- The two failure modes of `send`: the thrown `OpenAiError` carrying the
stringified body, and a thrown ZodError from `responseSchema.parse`. -/
inductive SendError where
  | openAiError (msg : String)
  | validationFailed
deriving DecidableEq

/-- Translation of `send` (lines 154-179): the network round trip is
modelled by passing the decoded response body (`res.json()`) as `rawBody`;
`config` and `messages` shape only the outbound HTTP request, and are kept
as parameters for faithfulness. A truthy `error` field throws `OpenAiError`
with the stringified payload; otherwise the body is validated against
`responseSchema`. -/
def send (config : OpenAiRequestConfig) (messages : List Message) (rawBody : JsonValue) :
    Except SendError Response :=
  if truthyField rawBody "error" then .error (.openAiError (stringify rawBody))
  else
    match responseParse rawBody with
    | some r => .ok r
    | none => .error .validationFailed

/-- The optional second argument of `query`. -/
structure QueryConfig where
  systemPrompt : Option String
  openAiConfig : Option OpenAiRequestConfigOverride
  schema : Option Schema

/-- The JSON-instruction system message content pushed when a schema is
supplied. -/
def jsonInstruction (s : Schema) : String :=
  "Only provide responses in valid JSON in terms of " ++ stringify (zodToJsonSchema s) ++ "."

/-- The message list built by `query` (lines 114-124): push the JSON
instruction iff a schema is supplied, push the caller system prompt iff
`systemPrompt` is truthy (present and non-empty - the source tests the
string itself), then always push the user prompt. -/
def queryMessages (config : Option QueryConfig) (userPrompt : String) : List Message :=
  let schema := config.bind (·.schema)
  let systemPrompt := config.bind (·.systemPrompt)
  let ms : List Message := []
  let ms :=
    match schema with
    | some s => ms.concat (.system (jsonInstruction s))
    | none => ms
  let ms :=
    match systemPrompt with
    | some sp => if sp ≠ "" then ms.concat (.system sp) else ms
    | none => ms
  ms.concat (.user userPrompt)

/-- The merged request configuration `query` passes to `send` (line 127). -/
def queryRequestConfig (config : Option QueryConfig) : OpenAiRequestConfig :=
  mergeConfig (config.bind (·.schema)).isSome (config.bind (·.openAiConfig))

/-- What a `query` invocation hands back: the returned value (a raw string
without a schema, a schema-validated JSON value with one), or one of the
termination modes. -/
inductive QueryValue where
  | raw (s : String)
  | typed (v : JsonValue)
deriving DecidableEq

/-- How a `query` invocation ends: a returned value, an unhandled
`OpenAiError` rejection, an unhandled ZodError from envelope validation,
the deliberate `process.exit(1)` of the catch block, or the TypeError from
reading `finish_reason` of `undefined` on an empty choices array. -/
inductive QueryResult where
  | ok (v : QueryValue)
  | providerError (msg : String)
  | validationError
  | exitProcess
  | runtimeError
deriving DecidableEq

/-- A whole `query` run: its result plus the `console.warn` and
`console.error` lines it emitted, in order. -/
structure QueryRun where
  result : QueryResult
  warnings : List String
  errors : List String
deriving DecidableEq

/-- The tail of `query` after the transport resolves (lines 131-150): the
unchecked `choices[0]!` access (on an empty array the subsequent
`finish_reason` field access throws a TypeError - `runtimeError` - outside
the catch), the non-fatal finish-reason warning, and the schema-directed
content parsing whose catch block prints a diagnostic (pretty-printed when
the content re-parses as JSON, verbatim otherwise) and exits the process. -/
def processResponse (schema : Option Schema) (response : Response) : QueryRun :=
  match response.choices with
  | [] => ⟨.runtimeError, [], []⟩
  | choice :: _ =>
    let warnings :=
      if choice.finish_reason ≠ .stop then
        ["Unexpected finish reason: " ++ choice.finish_reason.asString]
      else []
    let content := choice.message.content
    match schema with
    | none => ⟨.ok (.raw content), warnings, []⟩
    | some s =>
      match parseJson content with
      | none => ⟨.exitProcess, warnings, ["Could not parse: " ++ content]⟩
      | some v =>
        match s.parse v with
        | some v2 => ⟨.ok (.typed v2), warnings, []⟩
        | none => ⟨.exitProcess, warnings, ["Could not parse: " ++ prettyStringify v]⟩

/-- Translation of `query` (lines 110-151): build the message list, merge
the configuration, invoke the transport (whose network response body is the
explicit `rawBody`), and process the validated envelope. Transport failures
propagate unhandled. -/
def query (userPrompt : String) (config : Option QueryConfig) (rawBody : JsonValue) :
    QueryRun :=
  match send (queryRequestConfig config) (queryMessages config userPrompt) rawBody with
  | .error (.openAiError msg) => ⟨.providerError msg, [], []⟩
  | .error .validationFailed => ⟨.validationError, [], []⟩
  | .ok r => processResponse (config.bind (·.schema)) r

theorem query_ok {up : String} {config : Option QueryConfig} {rawBody : JsonValue}
    {r : Response} (htr : truthyField rawBody "error" = false)
    (hr : responseParse rawBody = some r) :
    query up config rawBody = processResponse (config.bind (fun c => c.schema)) r := by
  have hsend : send (queryRequestConfig config) (queryMessages config up) rawBody = .ok r := by
    simp only [send, htr, Bool.false_eq_true, if_false, hr]
  unfold query
  rw [hsend]

theorem processResponse_noSchema {r : Response} {c : Choice} {cs : List Choice}
    (hc : r.choices = c :: cs) :
    (processResponse none r).result = .ok (.raw c.message.content) := by
  simp [processResponse, hc]

theorem processResponse_schema_ok {S : Schema} {r : Response} {c : Choice} {cs : List Choice}
    {v w : JsonValue} (hc : r.choices = c :: cs)
    (hp : parseJson c.message.content = some v) (hs : S.parse v = some w) :
    (processResponse (some S) r).result = .ok (.typed w) := by
  simp [processResponse, hc, hp, hs]

theorem processResponse_badJson {S : Schema} {r : Response} {c : Choice} {cs : List Choice}
    (hc : r.choices = c :: cs) (hp : parseJson c.message.content = none) :
    (processResponse (some S) r).result = .exitProcess ∧
    (processResponse (some S) r).errors = ["Could not parse: " ++ c.message.content] := by
  constructor
  · simp [processResponse, hc, hp]
  · simp [processResponse, hc, hp]

theorem processResponse_badSchema {S : Schema} {r : Response} {c : Choice} {cs : List Choice}
    {v : JsonValue} (hc : r.choices = c :: cs)
    (hp : parseJson c.message.content = some v) (hs : S.parse v = none) :
    (processResponse (some S) r).result = .exitProcess ∧
    (processResponse (some S) r).errors = ["Could not parse: " ++ prettyStringify v] := by
  constructor
  · simp [processResponse, hc, hp, hs]
  · simp [processResponse, hc, hp, hs]

/-- A well-formed provider envelope with one stop-finished assistant choice
carrying the given content. -/
def mkEnvelope (content : String) : JsonValue :=
  .obj [("id", .str "chatcmpl-1"), ("model", .str "gpt-4-1106-preview"),
    ("object", .str "chat.completion"),
    ("choices", .arr [.obj [("message",
        .obj [("role", .str "assistant"), ("content", .str content)]),
      ("finish_reason", .str "stop")]]),
    ("usage", .obj [("completion_tokens", .num 1), ("prompt_tokens", .num 2),
      ("total_tokens", .num 3)])]

/-- A validated response whose single choice finished with "length". -/
def lengthResp : Response :=
  ⟨"x", "m", "chat.completion", [⟨.assistant "hi" none, .length⟩], ⟨1, 2, 3⟩⟩

/-- A validated response with an empty choices array. -/
def emptyChoicesResp : Response := ⟨"x", "m", "chat.completion", [], ⟨1, 2, 3⟩⟩

/-- Replace the finish reason of the first choice by "stop". -/
def Choice.withStop (c : Choice) : Choice := ⟨c.message, .stop⟩

/-- Replace the choices list of a response. -/
def Response.withChoices (r : Response) (cs : List Choice) : Response :=
  ⟨r.id, r.model, r.object, cs, r.usage⟩

/-- C1 (counterexample): a JSON value satisfying the schema in the zod sense
(parse succeeds) whose extra object key is stripped, so the returned value is
not deep-equal to it: with schema `z.object({a: z.number()})` and content
`JSON.stringify({a: 1, b: 2})`, `query` returns `{a: 1}`. -/
theorem c1_counterexample :
    (Schema.parse (.object [("a", .number)]) (.obj [("a", .num 1), ("b", .num 2)])).isSome
      = true ∧
    (query "p" (some ⟨none, none, some (.object [("a", .number)])⟩)
      (mkEnvelope (stringify (.obj [("a", .num 1), ("b", .num 2)])))).result =
      .ok (.typed (.obj [("a", .num 1)])) ∧
    JsonValue.obj [("a", .num 1)] ≠ JsonValue.obj [("a", .num 1), ("b", .num 2)] :=
  ⟨rfl, rfl, by decide⟩

/-- C1 (amended): for every schema S and JSON value V that S parses back to
itself (exact conformance, no stripped keys), if the first-choice content
of the validated response equals `JSON.stringify(V)`, then `query` with schema S
returns exactly V: parse after stringify is the identity on exactly
conforming values. -/
theorem c1_parse_after_stringify_identity (up : String) (sp : Option String)
    (oc : Option OpenAiRequestConfigOverride) (S : Schema) (V : JsonValue)
    (rawBody : JsonValue) (r : Response) (c : Choice) (cs : List Choice)
    (htr : truthyField rawBody "error" = false)
    (hr : responseParse rawBody = some r)
    (hc : r.choices = c :: cs)
    (hcontent : c.message.content = stringify V)
    (hS : S.parse V = some V) :
    (query up (some ⟨sp, oc, some S⟩) rawBody).result = .ok (.typed V) := by
  rw [query_ok htr hr]
  exact processResponse_schema_ok hc (by rw [hcontent, parseJson_stringify]) hS

/-- C1 (witness): the amended theorem at the example shape of the repository,
`z.object({body: z.string(), punchline: z.string()})`. -/
theorem c1_witness :
    (query "p"
      (some ⟨none, none, some (.object [("body", .string), ("punchline", .string)])⟩)
      (mkEnvelope (stringify
        (.obj [("body", .str "a"), ("punchline", .str "b")])))).result =
      .ok (.typed (.obj [("body", .str "a"), ("punchline", .str "b")])) :=
  c1_parse_after_stringify_identity "p" none none
    (.object [("body", .string), ("punchline", .string)])
    (.obj [("body", .str "a"), ("punchline", .str "b")])
    (mkEnvelope (stringify (.obj [("body", .str "a"), ("punchline", .str "b")])))
    ⟨"chatcmpl-1", "gpt-4-1106-preview", "chat.completion",
      [⟨.assistant (stringify (.obj [("body", .str "a"), ("punchline", .str "b")])) none,
        .stop⟩], ⟨1, 2, 3⟩⟩
    ⟨.assistant (stringify (.obj [("body", .str "a"), ("punchline", .str "b")])) none, .stop⟩
    [] rfl rfl rfl rfl rfl

/-- C2 (counterexample): `Partial<OpenAiRequestConfig>` admits an explicit
`undefined` for `response_format`; such an override spreads last, sets the
merged property to `undefined`, and `JSON.stringify` then omits it - so a
call with a schema and `openAiConfig = {response_format: undefined}` sends a
request body with no `response_format` at all. -/
theorem c2_counterexample :
    ((some (⟨none, some ⟨none, some none, none, none, none⟩, some .string⟩ : QueryConfig) :
      Option QueryConfig).bind (fun c => c.schema)).isSome = true ∧
    (queryRequestConfig
      (some ⟨none, some ⟨none, some none, none, none, none⟩, some .string⟩)).response_format =
      none :=
  ⟨rfl, rfl⟩

/-- C2 (amended): whenever a schema is supplied, the merged request
configuration that `query` sends carries
`response_format = {type: "json_object"}` for every caller-supplied
override except one that carries `response_format` with an explicit
`undefined` value - that one removes the field from the serialized body;
any present override value can only be the `json_object` literal, so the
field is never changed to anything else. -/
theorem c2_response_format_forced (config : Option QueryConfig)
    (hs : (config.bind (fun c => c.schema)).isSome = true)
    (hrf : ∀ o, config.bind (fun c => c.openAiConfig) = some o →
      o.response_format ≠ some none) :
    (queryRequestConfig config).response_format = some .json_object := by
  cases config with
  | none => simp [Option.bind] at hs
  | some cfg =>
    obtain ⟨sp, oc, os⟩ := cfg
    cases os with
    | none => simp [Option.bind] at hs
    | some s =>
      cases oc with
      | none => rfl
      | some o =>
        obtain ⟨m, rf, fp, t, tp⟩ := o
        have hne := hrf ⟨m, rf, fp, t, tp⟩ rfl
        cases rf with
        | none => rfl
        | some w =>
          cases w with
          | none => exact absurd rfl hne
          | some r => cases r; rfl

/-- C2 (witness): a call with a schema and overrides that touch temperature
and carry the only definable `response_format` value still sends
`json_object`. -/
theorem c2_witness :
    (queryRequestConfig (some ⟨none,
      some ⟨none, some (some .json_object), none, some (some (7 / 10)), none⟩,
      some .string⟩)).response_format = some .json_object :=
  c2_response_format_forced
    (some ⟨none, some ⟨none, some (some .json_object), none, some (some (7 / 10)), none⟩,
      some .string⟩)
    rfl
    (fun o ho => by
      obtain rfl :
          (⟨none, some (some .json_object), none, some (some (7 / 10)), none⟩ :
            OpenAiRequestConfigOverride) = o :=
        Option.some.inj ho
      intro hx
      cases Option.some.inj hx)

/-- C3 (counterexample): the envelope validation accepts a body whose
choices array is empty and whose usage token counts are negative - `z.array`
and `z.number` impose no non-emptiness or sign constraint. -/
theorem c3_counterexample :
    responseParse (.obj [("id", .str "x"), ("model", .str "m"),
      ("object", .str "chat.completion"), ("choices", .arr []),
      ("usage", .obj [("completion_tokens", .num (-1)), ("prompt_tokens", .num (-1)),
        ("total_tokens", .num (-2))])]) =
      some ⟨"x", "m", "chat.completion", [], ⟨-1, -1, -2⟩⟩ := rfl

/-- A syntactically well-shaped envelope with an empty choices array and the
given usage numbers. -/
def envelopeWithUsage (i m : String) (ct pt tt : Int) : JsonValue :=
  .obj [("id", .str i), ("model", .str m), ("object", .str "chat.completion"),
    ("choices", .arr []),
    ("usage", .obj [("completion_tokens", .num ct), ("prompt_tokens", .num pt),
      ("total_tokens", .num tt)])]

/-- C3 (amended): the envelope validation accepts exactly the fixed shape of
`responseSchema`, in which choices is any array - the empty one included -
and the usage token counts are any numbers, negative ones included (the
schema uses plain `z.array` and `z.number`); a body missing the required
fields is still rejected. -/
theorem c3_envelope_shape (i m : String) (ct pt tt : Int) :
    responseParse (envelopeWithUsage i m ct pt tt) =
      some ⟨i, m, "chat.completion", [], ⟨ct, pt, tt⟩⟩ ∧
    responseParse (.obj [("id", .str i)]) = none :=
  ⟨rfl, rfl⟩

/-- C4: with a schema supplied, a first-choice content that is not valid
JSON or does not satisfy the schema makes `query` end in `process.exit(1)`
after printing one `Could not parse:` diagnostic - the raw content verbatim
when it is not JSON, its indent-2 pretty-printing when it is - and no
exception reaches the caller. -/
theorem c4_parse_failure_exits (up : String) (sp : Option String)
    (oc : Option OpenAiRequestConfigOverride) (S : Schema) (rawBody : JsonValue)
    (r : Response) (c : Choice) (cs : List Choice)
    (htr : truthyField rawBody "error" = false)
    (hr : responseParse rawBody = some r)
    (hc : r.choices = c :: cs)
    (hfail : parseJson c.message.content = none ∨
      ∃ v, parseJson c.message.content = some v ∧ S.parse v = none) :
    (query up (some ⟨sp, oc, some S⟩) rawBody).result = .exitProcess ∧
    ∃ d, (query up (some ⟨sp, oc, some S⟩) rawBody).errors = ["Could not parse: " ++ d] ∧
      (parseJson c.message.content = none → d = c.message.content) ∧
      (∀ v, parseJson c.message.content = some v → d = prettyStringify v) := by
  rw [query_ok htr hr]
  rcases hfail with hp | ⟨v, hp, hs⟩
  · obtain ⟨h1, h2⟩ := processResponse_badJson (S := S) hc hp
    refine ⟨h1, c.message.content, h2, fun _ => rfl, ?_⟩
    intro v hv
    rw [hp] at hv
    cases hv
  · obtain ⟨h1, h2⟩ := processResponse_badSchema hc hp hs
    refine ⟨h1, prettyStringify v, h2, ?_, ?_⟩
    · intro h0
      rw [hp] at h0
      cases h0
    · intro v2 hv2
      rw [hp] at hv2
      cases hv2
      rfl

/-- C4 (witness): schema `z.number()` against the content "not json". -/
theorem c4_witness :
    (query "p" (some ⟨none, none, some .number⟩) (mkEnvelope "not json")).result =
      .exitProcess ∧
    ∃ d, (query "p" (some ⟨none, none, some .number⟩) (mkEnvelope "not json")).errors =
      ["Could not parse: " ++ d] ∧
      (parseJson (Message.content (.assistant "not json" none)) = none →
        d = Message.content (.assistant "not json" none)) ∧
      (∀ v, parseJson (Message.content (.assistant "not json" none)) = some v →
        d = prettyStringify v) :=
  c4_parse_failure_exits "p" none none .number (mkEnvelope "not json")
    ⟨"chatcmpl-1", "gpt-4-1106-preview", "chat.completion",
      [⟨.assistant "not json" none, .stop⟩], ⟨1, 2, 3⟩⟩
    ⟨.assistant "not json" none, .stop⟩ [] rfl rfl rfl (Or.inl rfl)

/-- C5 (counterexample): a body that contains an `error` field with the
falsy value `null` does not produce the provider error - the truthiness
check `json["error"]` passes it on to envelope validation, which fails with
a validation error instead (and prints nothing). -/
theorem c5_counterexample :
    jsonHasField (.obj [("error", .null)]) "error" = true ∧
    send DEFAULT_REQUEST_CONFIG [] (.obj [("error", .null)]) = .error .validationFailed ∧
    query "p" none (.obj [("error", .null)]) = ⟨.validationError, [], []⟩ :=
  ⟨rfl, rfl, rfl⟩

/-- C5 (amended): for every response body whose `error` field is truthy, the
call fails with a provider error whose message is the stringified raw
payload, before envelope validation and before any content parsing, and no
diagnostic is printed; a present-but-falsy `error` field (e.g. `null`)
instead falls through to envelope validation. -/
theorem c5_truthy_error_short_circuits (up : String) (config : Option QueryConfig)
    (rawBody : JsonValue) (h : truthyField rawBody "error" = true) :
    query up config rawBody = ⟨.providerError (stringify rawBody), [], []⟩ := by
  unfold query
  simp only [send, h, if_true]

/-- C5 (witness): a body carrying `error: "boom"`. -/
theorem c5_witness :
    query "p" none (.obj [("error", .str "boom")]) =
      ⟨.providerError (stringify (.obj [("error", .str "boom")])), [], []⟩ :=
  c5_truthy_error_short_circuits "p" none (.obj [("error", .str "boom")]) rfl

/-- C6: without a schema, `query` returns exactly the first-choice message
content of the validated response, untransformed. -/
theorem c6_no_schema_identity (up : String) (config : Option QueryConfig)
    (rawBody : JsonValue) (r : Response) (c : Choice) (cs : List Choice)
    (hs : config.bind (fun x => x.schema) = none)
    (htr : truthyField rawBody "error" = false)
    (hr : responseParse rawBody = some r)
    (hc : r.choices = c :: cs) :
    (query up config rawBody).result = .ok (.raw c.message.content) := by
  rw [query_ok htr hr, hs]
  exact processResponse_noSchema hc

/-- C6 (witness): a plain call with content "hi". -/
theorem c6_witness :
    (query "Tell me a joke" none (mkEnvelope "hi")).result = .ok (.raw "hi") :=
  c6_no_schema_identity "Tell me a joke" none (mkEnvelope "hi")
    ⟨"chatcmpl-1", "gpt-4-1106-preview", "chat.completion",
      [⟨.assistant "hi" none, .stop⟩], ⟨1, 2, 3⟩⟩
    ⟨.assistant "hi" none, .stop⟩ [] rfl rfl rfl rfl

/-- C7 (counterexample): a supplied but empty `systemPrompt` produces no
system message at all - the source tests the truthiness of the string, so the
empty string is treated as absent, refuting "present iff supplied". -/
theorem c7_counterexample :
    (some "" : Option String) ≠ none ∧
    queryMessages (some ⟨some "", none, none⟩) "hi" = [Message.user "hi"] :=
  ⟨by decide, rfl⟩

/-- C7 (amended): the outbound message list is always the JSON-instruction
system message (present iff a schema is supplied), then the caller-supplied system
message (present iff `systemPrompt` is supplied and non-empty - string
truthiness), then the user message, which is always present and last. -/
theorem c7_message_order (config : Option QueryConfig) (up : String) :
    queryMessages config up =
      (match config.bind (fun c => c.schema) with
        | some s => [Message.system (jsonInstruction s)]
        | none => []) ++
      ((match config.bind (fun c => c.systemPrompt) with
        | some sp => if sp ≠ "" then [Message.system sp] else []
        | none => []) ++
      [Message.user up]) := by
  cases config with
  | none => rfl
  | some cfg =>
    obtain ⟨sp, oc, os⟩ := cfg
    cases os with
    | none =>
      cases sp with
      | none => rfl
      | some s =>
        by_cases hs : s = ""
        · simp [queryMessages, hs]
        · simp [queryMessages, hs]
    | some sch =>
      cases sp with
      | none => rfl
      | some s =>
        by_cases hs : s = ""
        · simp [queryMessages, hs]
        · simp [queryMessages, hs]

/-- C8: configuration merging is a field-by-field shallow override - a
caller override of temperature alone replaces only that field, leaving the
default model identifier (and the unset optional fields) unchanged in the
request configuration `query` sends. -/
theorem c8_shallow_merge (t : Rat) :
    queryRequestConfig (some ⟨none, some ⟨none, none, none, some (some t), none⟩, none⟩) =
      ⟨some "gpt-4-1106-preview", none, none, some t, none⟩ ∧
    queryRequestConfig none = DEFAULT_REQUEST_CONFIG :=
  ⟨rfl, rfl⟩

/-- C9: a first-choice finish reason other than "stop" only adds a warning:
the result and the error output are the same as for the identical response
with finish reason "stop", and the warning is emitted exactly when the
finish reason is not "stop". -/
theorem c9_finish_reason_warning (s : Option Schema) (r : Response) (c : Choice)
    (cs : List Choice) (hc : r.choices = c :: cs) :
    (processResponse s r).result =
      (processResponse s (r.withChoices (c.withStop :: cs))).result ∧
    (processResponse s r).errors =
      (processResponse s (r.withChoices (c.withStop :: cs))).errors ∧
    (processResponse s r).warnings =
      (if c.finish_reason = .stop then []
       else ["Unexpected finish reason: " ++ c.finish_reason.asString]) := by
  refine ⟨?_, ?_, ?_⟩
  · cases s with
    | none => simp [processResponse, hc, Response.withChoices, Choice.withStop]
    | some sc =>
      cases hp : parseJson c.message.content with
      | none => simp [processResponse, hc, hp, Response.withChoices, Choice.withStop]
      | some v =>
        cases hsv : sc.parse v with
        | none => simp [processResponse, hc, hp, hsv, Response.withChoices, Choice.withStop]
        | some w => simp [processResponse, hc, hp, hsv, Response.withChoices, Choice.withStop]
  · cases s with
    | none => simp [processResponse, hc, Response.withChoices, Choice.withStop]
    | some sc =>
      cases hp : parseJson c.message.content with
      | none => simp [processResponse, hc, hp, Response.withChoices, Choice.withStop]
      | some v =>
        cases hsv : sc.parse v with
        | none => simp [processResponse, hc, hp, hsv, Response.withChoices, Choice.withStop]
        | some w => simp [processResponse, hc, hp, hsv, Response.withChoices, Choice.withStop]
  · by_cases hfr : c.finish_reason = .stop
    · cases s with
      | none => simp [processResponse, hc, hfr]
      | some sc =>
        cases hp : parseJson c.message.content with
        | none => simp [processResponse, hc, hp, hfr]
        | some v =>
          cases hsv : sc.parse v with
          | none => simp [processResponse, hc, hp, hsv, hfr]
          | some w => simp [processResponse, hc, hp, hsv, hfr]
    · cases s with
      | none => simp [processResponse, hc, hfr]
      | some sc =>
        cases hp : parseJson c.message.content with
        | none => simp [processResponse, hc, hp, hfr]
        | some v =>
          cases hsv : sc.parse v with
          | none => simp [processResponse, hc, hp, hsv, hfr]
          | some w => simp [processResponse, hc, hp, hsv, hfr]

/-- C9 (witness): a "length"-finished response warns and still returns the
content. -/
theorem c9_witness :
    (processResponse none lengthResp).warnings = ["Unexpected finish reason: length"] ∧
    (processResponse none lengthResp).result = .ok (.raw "hi") :=
  ⟨by
    have h := (c9_finish_reason_warning none lengthResp
      ⟨.assistant "hi" none, .length⟩ [] rfl).2.2
    simpa using h,
   rfl⟩

/-- C10: the processing of a validated response reads only `choices[0]`:
with at least one choice the run is identical to the run on the response
restricted to its first choice, and with an empty choices array the
unchecked `choices[0]!` access makes the subsequent field read throw an
unhandled TypeError (`runtimeError`, no diagnostic) instead of taking the
deliberate fail-fast exit path. -/
theorem c10_first_choice_only (s : Option Schema) (r : Response) :
    (r.choices = [] → processResponse s r = ⟨.runtimeError, [], []⟩) ∧
    (∀ c cs, r.choices = c :: cs →
      processResponse s r = processResponse s (r.withChoices [c])) := by
  constructor
  · intro h
    simp [processResponse, h]
  · intro c cs h
    simp [processResponse, h, Response.withChoices]

/-- C10 (witness): the empty-choices TypeError and the first-choice-only
equality at concrete responses. -/
theorem c10_witness :
    processResponse none emptyChoicesResp = ⟨.runtimeError, [], []⟩ ∧
    processResponse (some .string) lengthResp =
      processResponse (some .string)
        (lengthResp.withChoices [⟨.assistant "hi" none, .length⟩]) :=
  ⟨(c10_first_choice_only none emptyChoicesResp).1 rfl,
   (c10_first_choice_only (some .string) lengthResp).2
     ⟨.assistant "hi" none, .length⟩ [] rfl⟩
